import Mathlib

/-
  Shallow embedding of `src/app.py` from Tigeystudios/List-An-Item.

  The program is a Streamlit account manager with a per-account list,
  persisted as one JSON file.  We embed:
  * the account store (a Python dict username -> record) as an association
    list in insertion order;
  * `hashlib.sha256(...).hexdigest()` as an abstract function parameter
    `hash : String → String` (the library hash is deterministic; nothing in
    the program depends on more than that);
  * the JSON file as a `FileContent` value: absent, unparsable text, or a
    parsed JSON value (`json.dump`/`json.load` operate at the JSON value
    level; text serialisation is the json library's concern);
  * each form handler as a pure function from the session state and the
    form inputs to a new session state plus the message it reports.
-/

namespace ListAnItem

/-- Python `str.strip()` default whitespace characters (ASCII part). -/
def pyIsSpace (c : Char) : Bool :=
  c = ' ' || c = '\t' || c = '\n' || c = '\x0d' || c = '\x0b' || c = '\x0c'

/-- List-level strip: drop whitespace from the front, then from the back. -/
def stripList (l : List Char) : List Char :=
  ((l.dropWhile pyIsSpace).reverse.dropWhile pyIsSpace).reverse

/-- Python `s.strip()`: remove leading and trailing whitespace. -/
def pyStrip (s : String) : String :=
  ⟨stripList s.data⟩

/-- One account record: `{'password_hash': ..., 'my_list': [...]}` (app.py 86-89). -/
structure Account where
  password_hash : String
  my_list : List String
deriving DecidableEq, Repr

/-- The account store: the JSON-backed dict username -> record, in insertion
order (Python dicts preserve insertion order). -/
abbrev Store := List (String × Account)

/-- Dict lookup `accounts[u]` / `u in accounts`, first matching key. -/
def lookupStore : Store → String → Option Account
  | [], _ => none
  | (k, a) :: rest, u => if k = u then some a else lookupStore rest u

/-- Python `username in accounts` (app.py line 61, 108). -/
def containsKey (s : Store) (u : String) : Bool :=
  (lookupStore s u).isSome

/-- In-place mutation of the record stored under key `u`
(`user_data = accounts[username]; user_data['my_list'].append(...)` etc.). -/
def updateAccount (s : Store) (u : String) (f : Account → Account) : Store :=
  s.map fun p => if p.1 = u then (p.1, f p.2) else p

/-- JSON values, as far as this program's data goes. -/
inductive JValue where
  | jstr (s : String)
  | jarr (xs : List JValue)
  | jobj (fields : List (String × JValue))
deriving Repr

/-- Encoding of one account record as a JSON object (what `json.dump` writes
for a dict value, app.py 86-89). -/
def encodeAccount (a : Account) : JValue :=
  .jobj [("password_hash", .jstr a.password_hash),
         ("my_list", .jarr (a.my_list.map .jstr))]

/-- Encoding of the whole store as one JSON object keyed by username. -/
def encodeStore (s : Store) : JValue :=
  .jobj (s.map fun p => (p.1, encodeAccount p.2))

/-- Decode a JSON array of strings back to a list of strings. -/
def decodeStringList : List JValue → Option (List String)
  | [] => some []
  | .jstr s :: rest => (decodeStringList rest).map fun l => s :: l
  | _ => none

/-- Decode one account record from its JSON object. -/
def decodeAccount : JValue → Option Account
  | .jobj [("password_hash", .jstr h), ("my_list", .jarr xs)] =>
      (decodeStringList xs).map fun l => { password_hash := h, my_list := l }
  | _ => none

/-- Decode the fields of the top-level JSON object back to a store. -/
def decodeFields : List (String × JValue) → Option Store
  | [] => some []
  | (u, v) :: rest =>
      match decodeAccount v, decodeFields rest with
      | some a, some s => some ((u, a) :: s)
      | _, _ => none

/-- Decode a JSON value as an account store. -/
def decodeStore : JValue → Option Store
  | .jobj fields => decodeFields fields
  | _ => none

/-- The state of `accounts.json` on disk: missing, present but not valid
JSON (a `json.JSONDecodeError` on load), or a parsed JSON document. -/
inductive FileContent where
  | absent
  | corrupt
  | json (v : JValue)

/-- `save_accounts` (app.py 28-31): serialise the full mapping to the file,
overwriting it. -/
def save_accounts (s : Store) : FileContent :=
  .json (encodeStore s)

/-- `load_accounts` (app.py 16-25): `none` for the store component means the
file held JSON that is not an account mapping (the program would then use an
ill-shaped value); the Bool is whether the corruption warning was shown. -/
def load_accounts : FileContent → Option Store × Bool
  | .absent => (some [], false)
  | .corrupt => (some [], true)
  | .json v => (decodeStore v, false)

/-- The Streamlit session state plus the persisted file
(`st.session_state.accounts/page/logged_in_user`, app.py 218-223). -/
structure AppState where
  accounts : Store
  page : String
  logged_in_user : Option String
  file : FileContent

/-- A message shown by a handler: `st.error` / `st.warning` / `st.info` /
`st.success`. -/
inductive Msg where
  | error (s : String)
  | warning (s : String)
  | info (s : String)
  | success (s : String)
deriving DecidableEq, Repr

/-- `re.search(r"[a-z]", password)` (app.py 70). -/
def hasLowercase (p : String) : Bool :=
  p.data.any fun c => 'a' ≤ c && c ≤ 'z'

/-- `re.search(r"[A-Z]", password)` (app.py 73). -/
def hasUppercase (p : String) : Bool :=
  p.data.any fun c => 'A' ≤ c && c ≤ 'Z'

/-- `re.search(r"\d", password)` (app.py 76). -/
def hasDigit (p : String) : Bool :=
  p.data.any fun c => '0' ≤ c && c ≤ '9'

/-- The fixed special-character class of app.py line 79. -/
def specialChars : List Char :=
  ['!', '@', '#', '$', '%', '^', '&', '*', '(', ')', '_', '+', '=',
   '\x7b', '\x7d', '[', ']', '|', '\\', ':', ';', '\x27', '<', '>',
   ',', '.', '?', '/', '\x60', '~', '-']

/-- `re.search(r"[!@#$%^&*()_+={}\[\]|\\:;'<>,.?/`~-]", password)` (app.py 79). -/
def hasSpecial (p : String) : Bool :=
  p.data.any fun c => specialChars.contains c

/-- The submitted-branch of `register_account_page` (app.py 59-94), taking the
already-stripped form values. -/
def register_submit (hash : String → String) (st : AppState)
    (username password : String) : AppState × Msg :=
  if containsKey st.accounts username then
    (st, .error "Username already exists. Please choose a different one.")
  else if username = "" then
    (st, .error "Username cannot be empty.")
  else if password.length < 6 then
    (st, .error "Password must be at least 6 characters long.")
  else if !hasLowercase password then
    (st, .error "Password must contain at least one lowercase letter.")
  else if !hasUppercase password then
    (st, .error "Password must contain at least one uppercase letter.")
  else if !hasDigit password then
    (st, .error "Password must contain at least one digit.")
  else if !hasSpecial password then
    (st, .error "Password must contain at least one special character.")
  else
    let accounts' := st.accounts ++ [(username, { password_hash := hash password, my_list := [] })]
    ({ st with accounts := accounts', file := save_accounts accounts', page := "login" },
     .success ("Account \x27" ++ username ++ "\x27 created successfully!"))

/-- `register_account_page` (app.py 49-94): the text inputs are stripped
(lines 54-55) before the submit logic runs. -/
def register_account_page (hash : String → String) (st : AppState)
    (rawUsername rawPassword : String) : AppState × Msg :=
  register_submit hash st (pyStrip rawUsername) (pyStrip rawPassword)

/-- The submitted-branch of `login_account_page` (app.py 106-121), taking the
already-stripped form values. -/
def login_submit (hash : String → String) (st : AppState)
    (username password : String) : AppState × Msg :=
  match lookupStore st.accounts username with
  | none => (st, .error "Invalid username or password.")
  | some acct =>
      if acct.password_hash = hash password then
        ({ st with logged_in_user := some username, page := "list_management" },
         .success ("Welcome, " ++ username ++ "! You have successfully logged in."))
      else
        (st, .error "Invalid username or password.")

/-- `login_account_page` (app.py 97-121): the text inputs are stripped
(lines 102-103) before the submit logic runs. -/
def login_account_page (hash : String → String) (st : AppState)
    (rawUsername rawPassword : String) : AppState × Msg :=
  login_submit hash st (pyStrip rawUsername) (pyStrip rawPassword)

/-- The Add Item button handler of `manage_user_list_page` (app.py 178-191).
The page is only rendered with a logged-in user whose account exists; if the
account were missing, Python would raise a `KeyError` at line 130, modelled
here as an error message with no state change. -/
def add_item (st : AppState) (username : String) (rawItem : String) : AppState × Msg :=
  match lookupStore st.accounts username with
  | none => (st, .error "KeyError")
  | some acct =>
      let new_item := pyStrip rawItem
      if new_item ≠ "" then
        if new_item ∈ acct.my_list then
          (st, .warning ("\x27" ++ new_item ++ "\x27 is already in your list."))
        else
          let accounts' := updateAccount st.accounts username
            fun a => { a with my_list := a.my_list ++ [new_item] }
          ({ st with accounts := accounts', file := save_accounts accounts' },
           .success ("\x27" ++ new_item ++ "\x27 added to your list!"))
      else
        (st, .warning "Item cannot be empty.")

/-- The per-item removal toggle of `manage_user_list_page` (app.py 144-163):
when the checkbox for `item` is activated and the item is still in the list,
`list.remove(item)` drops its first occurrence and the store is saved.  The
two cosmetic `st.info` animation messages and the delays are not modelled. -/
def remove_item (st : AppState) (username item : String) : AppState :=
  match lookupStore st.accounts username with
  | none => st
  | some acct =>
      if item ∈ acct.my_list then
        let accounts' := updateAccount st.accounts username
          fun a => { a with my_list := a.my_list.erase item }
        { st with accounts := accounts', file := save_accounts accounts' }
      else st

/-- The Clear All Items button handler (app.py 196-204): clears and saves only
when the list is non-empty (`if user_data.get('my_list'):`). -/
def clear_list (st : AppState) (username : String) : AppState × Msg :=
  match lookupStore st.accounts username with
  | none => (st, .error "KeyError")
  | some acct =>
      if acct.my_list ≠ [] then
        let accounts' := updateAccount st.accounts username
          fun a => { a with my_list := [] }
        ({ st with accounts := accounts', file := save_accounts accounts' },
         .success "Your list has been cleared!")
      else
        (st, .info "Your list is already empty.")

/-- The Logout button handler (app.py 207-210): clears the logged-in user and
returns to the home page; accounts and file are untouched. -/
def logout (st : AppState) : AppState :=
  { st with logged_in_user := none, page := "home" }

/-- The user-facing operations that mutate or could mutate the store. -/
inductive Op where
  | reg (u p : String)
  | add (u rawItem : String)
  | rem (u item : String)
  | clear (u : String)
  | logout

/-- Apply one operation to the session state. -/
def applyOp (hash : String → String) (st : AppState) : Op → AppState
  | .reg u p => (register_account_page hash st u p).1
  | .add u rawItem => (add_item st u rawItem).1
  | .rem u item => remove_item st u item
  | .clear u => (clear_list st u).1
  | .logout => logout st

/-- Well-formedness of a store as the image of a Python dict: keys are
distinct, and (the application invariant) no list holds a duplicate. -/
def StoreWF (s : Store) : Prop :=
  (s.map Prod.fst).Nodup ∧ ∀ p ∈ s, (Prod.snd p).my_list.Nodup

/-! ### Helper lemmas about stripping -/

theorem stripList_eq_rdropWhile (l : List Char) :
    stripList l = List.rdropWhile pyIsSpace (l.dropWhile pyIsSpace) := rfl

theorem stripList_idem (l : List Char) : stripList (stripList l) = stripList l := by
  have hx : List.dropWhile pyIsSpace (List.dropWhile pyIsSpace l)
      = List.dropWhile pyIsSpace l := List.dropWhile_idempotent _ _
  have hpre : List.rdropWhile pyIsSpace (List.dropWhile pyIsSpace l)
      <+: List.dropWhile pyIsSpace l := List.rdropWhile_prefix _ _
  have hy : List.dropWhile pyIsSpace
        (List.rdropWhile pyIsSpace (List.dropWhile pyIsSpace l))
      = List.rdropWhile pyIsSpace (List.dropWhile pyIsSpace l) := by
    cases hy' : List.rdropWhile pyIsSpace (List.dropWhile pyIsSpace l) with
    | nil => simp
    | cons a t =>
      rw [hy'] at hpre
      obtain ⟨r, hr⟩ := hpre
      have hxa : List.dropWhile pyIsSpace l = a :: (t ++ r) := by
        rw [← hr]; simp
      have hpa : pyIsSpace a = false := by
        by_contra hcon
        have htrue : pyIsSpace a = true := by
          cases h : pyIsSpace a
          · exact absurd h hcon
          · rfl
        rw [hxa, List.dropWhile_cons, if_pos htrue] at hx
        have hlen : (List.dropWhile pyIsSpace (t ++ r)).length ≤ (t ++ r).length :=
          (List.dropWhile_suffix pyIsSpace).length_le
        rw [hx] at hlen
        simp at hlen
      rw [List.dropWhile_cons, if_neg (by simp [hpa])]
  calc stripList (stripList l)
      = List.rdropWhile pyIsSpace (List.dropWhile pyIsSpace
          (List.rdropWhile pyIsSpace (List.dropWhile pyIsSpace l))) := rfl
    _ = List.rdropWhile pyIsSpace
          (List.rdropWhile pyIsSpace (List.dropWhile pyIsSpace l)) := by rw [hy]
    _ = List.rdropWhile pyIsSpace (List.dropWhile pyIsSpace l) :=
          List.rdropWhile_idempotent _ _
    _ = stripList l := rfl

theorem pyStrip_idem (s : String) : pyStrip (pyStrip s) = pyStrip s :=
  congrArg String.mk (stripList_idem s.data)

/-! ### Helper lemmas about the store -/

theorem lookupStore_updateAccount_self (s : Store) (u : String) (f : Account → Account) :
    lookupStore (updateAccount s u f) u = (lookupStore s u).map f := by
  induction s with
  | nil => rfl
  | cons hd tl ih =>
    obtain ⟨k, a⟩ := hd
    show lookupStore ((if k = u then (k, f a) else (k, a)) :: updateAccount tl u f) u
        = Option.map f (lookupStore ((k, a) :: tl) u)
    by_cases hk : k = u
    · rw [if_pos hk]
      show (if k = u then some (f a) else lookupStore (updateAccount tl u f) u) = _
      rw [if_pos hk]
      show _ = Option.map f (if k = u then some a else lookupStore tl u)
      rw [if_pos hk]
      rfl
    · rw [if_neg hk]
      show (if k = u then some a else lookupStore (updateAccount tl u f) u) = _
      rw [if_neg hk]
      show _ = Option.map f (if k = u then some a else lookupStore tl u)
      rw [if_neg hk]
      exact ih

theorem lookupStore_updateAccount_ne (s : Store) (u v : String) (f : Account → Account)
    (h : v ≠ u) : lookupStore (updateAccount s u f) v = lookupStore s v := by
  induction s with
  | nil => rfl
  | cons hd tl ih =>
    obtain ⟨k, a⟩ := hd
    show lookupStore ((if k = u then (k, f a) else (k, a)) :: updateAccount tl u f) v
        = lookupStore ((k, a) :: tl) v
    by_cases hk : k = u
    · have hkv : k ≠ v := by rw [hk]; exact fun hc => h hc.symm
      rw [if_pos hk]
      show (if k = v then some (f a) else lookupStore (updateAccount tl u f) v) = _
      rw [if_neg hkv]
      show _ = (if k = v then some a else lookupStore tl v)
      rw [if_neg hkv]
      exact ih
    · rw [if_neg hk]
      show (if k = v then some a else lookupStore (updateAccount tl u f) v)
          = (if k = v then some a else lookupStore tl v)
      by_cases hkv : k = v
      · rw [if_pos hkv, if_pos hkv]
      · rw [if_neg hkv, if_neg hkv]
        exact ih

theorem lookupStore_append_singleton_ne (s : Store) (u v : String) (a : Account)
    (h : v ≠ u) : lookupStore (s ++ [(u, a)]) v = lookupStore s v := by
  induction s with
  | nil =>
    have : u ≠ v := fun hc => h hc.symm
    simp [lookupStore, this]
  | cons hd tl ih =>
    obtain ⟨k, b⟩ := hd
    by_cases hk : k = v
    · simp [lookupStore, hk]
    · simpa [lookupStore, hk] using ih

theorem lookupStore_append_singleton_self (s : Store) (u : String) (a : Account)
    (h : lookupStore s u = none) : lookupStore (s ++ [(u, a)]) u = some a := by
  induction s with
  | nil => simp [lookupStore]
  | cons hd tl ih =>
    obtain ⟨k, b⟩ := hd
    by_cases hk : k = u
    · simp [lookupStore, hk] at h
    · simp [lookupStore, hk] at h ⊢
      exact ih h

theorem containsKey_false_iff (s : Store) (u : String) :
    containsKey s u = false ↔ lookupStore s u = none := by
  cases h : lookupStore s u <;> simp [containsKey, h]

theorem lookupStore_eq_of_mem (s : Store) (q : String × Account)
    (hnd : (s.map Prod.fst).Nodup) (hq : q ∈ s) : lookupStore s q.1 = some q.2 := by
  induction s with
  | nil => cases hq
  | cons hd tl ih =>
    obtain ⟨k, a⟩ := hd
    rcases List.mem_cons.mp hq with h | h
    · rw [h]; simp [lookupStore]
    · have hk : k ≠ q.1 := by
        intro hcon
        have hmem : q.1 ∈ tl.map Prod.fst := List.mem_map_of_mem Prod.fst h
        rw [← hcon] at hmem
        exact (List.nodup_cons.mp (by simpa using hnd)).1 hmem
      simp [lookupStore, hk]
      exact ih (List.nodup_cons.mp (by simpa using hnd)).2 h

theorem mem_of_lookupStore (s : Store) (u : String) (a : Account)
    (h : lookupStore s u = some a) : (u, a) ∈ s := by
  induction s with
  | nil => simp [lookupStore] at h
  | cons hd tl ih =>
    obtain ⟨k, b⟩ := hd
    by_cases hk : k = u
    · simp [lookupStore, hk] at h
      rw [← h, ← hk]
      exact List.mem_cons_self _ _
    · simp [lookupStore, hk] at h
      exact List.mem_cons_of_mem _ (ih h)

theorem lookupStore_none_iff_not_mem_keys (s : Store) (u : String) :
    lookupStore s u = none ↔ u ∉ s.map Prod.fst := by
  induction s with
  | nil => simp [lookupStore]
  | cons hd tl ih =>
    obtain ⟨k, a⟩ := hd
    by_cases hk : k = u
    · simp [lookupStore, hk]
    · have hk' : ¬ u = k := fun hc => hk hc.symm
      simp [lookupStore, hk, hk', ih]

theorem map_fst_updateAccount (s : Store) (u : String) (f : Account → Account) :
    (updateAccount s u f).map Prod.fst = s.map Prod.fst := by
  induction s with
  | nil => rfl
  | cons hd tl ih =>
    obtain ⟨k, a⟩ := hd
    by_cases hk : k = u
    · simpa [updateAccount, hk] using ih
    · simpa [updateAccount, hk] using ih

/-! ### Helper lemmas about JSON encoding -/

theorem decodeStringList_map (l : List String) :
    decodeStringList (l.map JValue.jstr) = some l := by
  induction l with
  | nil => rfl
  | cons x xs ih => simp [decodeStringList, ih]

theorem decodeAccount_encodeAccount (a : Account) :
    decodeAccount (encodeAccount a) = some a := by
  simp [encodeAccount, decodeAccount, decodeStringList_map]

theorem decodeStore_encodeStore (s : Store) :
    decodeStore (encodeStore s) = some s := by
  show decodeFields (s.map fun p => (p.1, encodeAccount p.2)) = some s
  induction s with
  | nil => rfl
  | cons hd tl ih =>
    obtain ⟨u, a⟩ := hd
    simp [decodeFields, decodeAccount_encodeAccount, ih]

/-! ### Preservation of store well-formedness -/

theorem StoreWF_nil : StoreWF [] := by
  constructor
  · simp
  · intro p hp
    cases hp

theorem StoreWF_append_new (s : Store) (u : String) (a : Account)
    (hWF : StoreWF s) (hu : lookupStore s u = none) (ha : a.my_list.Nodup) :
    StoreWF (s ++ [(u, a)]) := by
  constructor
  · rw [List.map_append]
    refine List.Nodup.append hWF.1 (List.nodup_singleton _) ?_
    simp only [List.map_cons, List.map_nil]
    have := (lookupStore_none_iff_not_mem_keys s u).mp hu
    simpa using this
  · intro p hp
    rcases List.mem_append.mp hp with h | h
    · exact hWF.2 p h
    · have : p = (u, a) := by simpa using h
      rw [this]
      exact ha

theorem StoreWF_updateAccount (s : Store) (u : String) (f : Account → Account)
    (acct : Account) (hWF : StoreWF s) (hlk : lookupStore s u = some acct)
    (hf : (f acct).my_list.Nodup) : StoreWF (updateAccount s u f) := by
  constructor
  · rw [map_fst_updateAccount]
    exact hWF.1
  · intro p hp
    obtain ⟨q, hq, hg⟩ := List.mem_map.mp hp
    by_cases hk : q.1 = u
    · have hq2 : q.2 = acct := by
        have hlq : lookupStore s u = some q.2 := by
          rw [← hk]
          exact lookupStore_eq_of_mem s q hWF.1 hq
        rw [hlq] at hlk
        exact Option.some.inj hlk
      rw [← hg, if_pos hk]
      show (f q.2).my_list.Nodup
      rw [hq2]
      exact hf
    · rw [← hg, if_neg hk]
      exact hWF.2 q hq

theorem StoreWF_register_submit (hash : String → String) (st : AppState) (u p : String)
    (h : StoreWF st.accounts) : StoreWF (register_submit hash st u p).1.accounts := by
  unfold register_submit
  split_ifs with h1 h2 h3 h4 h5 h6 h7
  · exact h
  · exact h
  · exact h
  · exact h
  · exact h
  · exact h
  · exact h
  · show StoreWF (st.accounts ++ [(u, { password_hash := hash p, my_list := [] })])
    refine StoreWF_append_new _ _ _ h ?_ (by simp)
    exact (containsKey_false_iff _ _).mp (by simpa using h1)

theorem StoreWF_add_item (st : AppState) (u raw : String)
    (h : StoreWF st.accounts) : StoreWF (add_item st u raw).1.accounts := by
  unfold add_item
  cases hlk : lookupStore st.accounts u with
  | none => exact h
  | some acct =>
    have hnd : acct.my_list.Nodup := h.2 (u, acct) (mem_of_lookupStore _ _ _ hlk)
    dsimp only
    split_ifs with h1 h2
    · exact h
    · show StoreWF (updateAccount st.accounts u
        fun a => { a with my_list := a.my_list ++ [pyStrip raw] })
      refine StoreWF_updateAccount _ _ _ acct h hlk ?_
      show (acct.my_list ++ [pyStrip raw]).Nodup
      exact List.Nodup.append hnd (List.nodup_singleton _) (by simpa using h2)
    · exact h

theorem StoreWF_remove_item (st : AppState) (u item : String)
    (h : StoreWF st.accounts) : StoreWF (remove_item st u item).accounts := by
  unfold remove_item
  cases hlk : lookupStore st.accounts u with
  | none => exact h
  | some acct =>
    have hnd : acct.my_list.Nodup := h.2 (u, acct) (mem_of_lookupStore _ _ _ hlk)
    dsimp only
    split_ifs with h1
    · show StoreWF (updateAccount st.accounts u
        fun a => { a with my_list := a.my_list.erase item })
      refine StoreWF_updateAccount _ _ _ acct h hlk ?_
      exact hnd.erase item
    · exact h

theorem StoreWF_clear_list (st : AppState) (u : String)
    (h : StoreWF st.accounts) : StoreWF (clear_list st u).1.accounts := by
  unfold clear_list
  cases hlk : lookupStore st.accounts u with
  | none => exact h
  | some acct =>
    dsimp only
    split_ifs with h1
    · show StoreWF (updateAccount st.accounts u fun a => { a with my_list := [] })
      exact StoreWF_updateAccount _ _ _ acct h hlk (by simp)
    · exact h

theorem StoreWF_applyOp (hash : String → String) (st : AppState) (op : Op)
    (h : StoreWF st.accounts) : StoreWF (applyOp hash st op).accounts := by
  cases op with
  | reg u p => exact StoreWF_register_submit hash st (pyStrip u) (pyStrip p) h
  | add u raw => exact StoreWF_add_item st u raw h
  | rem u item => exact StoreWF_remove_item st u item h
  | clear u => exact StoreWF_clear_list st u h
  | logout => exact h

theorem StoreWF_foldl (hash : String → String) (ops : List Op) (st : AppState)
    (h : StoreWF st.accounts) : StoreWF ((ops.foldl (applyOp hash) st).accounts) := by
  induction ops generalizing st with
  | nil => exact h
  | cons op rest ih => exact ih (applyOp hash st op) (StoreWF_applyOp hash st op h)

/-- Which operations are the list-manager ones (add, remove, clear). -/
def Op.isListOp : Op → Bool
  | .add _ _ => true
  | .rem _ _ => true
  | .clear _ => true
  | _ => false

/-- The username an operation acts on, when it names one. -/
def Op.user : Op → Option String
  | .reg u _ => some u
  | .add u _ => some u
  | .rem u _ => some u
  | .clear u => some u
  | .logout => none

/-! ### Concrete fixtures used by the witnesses -/

/-- A concrete stand-in for the abstract hash parameter. -/
def hash0 : String → String := fun s => s

/-- The initial session state over an empty store. -/
def st0 : AppState :=
  { accounts := [], page := "home", logged_in_user := none, file := FileContent.absent }

/-- A concrete account for witnesses. -/
def aliceAcct : Account := { password_hash := "Abc123!", my_list := ["milk", "eggs"] }

/-- A concrete two-account state for witnesses. -/
def st1 : AppState :=
  { accounts := [("alice", aliceAcct),
                 ("bob", { password_hash := "Xyz789?", my_list := ["tea"] })],
    page := "list_management", logged_in_user := some "alice",
    file := FileContent.absent }

/-! ### The claims -/

/-- C1: for every store and every (username, password) input to the login
form logic, login succeeds exactly when the username is a key of the store
and the hash of the password equals the stored `password_hash`; on success it
sets `logged_in_user` to that username and the page to `"list_management"`,
and on either kind of failure (unknown username or wrong password) it reports
the same generic message "Invalid username or password." and changes no
state. -/
theorem login_matches_spec (hash : String → String) (st : AppState) (u p : String) :
    (∀ acct, lookupStore st.accounts u = some acct → acct.password_hash = hash p →
      login_submit hash st u p =
        ({ st with logged_in_user := some u, page := "list_management" },
         Msg.success ("Welcome, " ++ u ++ "! You have successfully logged in.")))
  ∧ ((∀ acct, lookupStore st.accounts u = some acct → acct.password_hash ≠ hash p) →
      login_submit hash st u p = (st, Msg.error "Invalid username or password.")) := by
  constructor
  · intro acct hlk hhash
    unfold login_submit
    rw [hlk]
    dsimp only
    rw [if_pos hhash]
  · intro hno
    unfold login_submit
    cases hlk : lookupStore st.accounts u with
    | none => rfl
    | some acct =>
      dsimp only
      rw [if_neg (hno acct hlk)]

theorem login_matches_spec_witness :
    login_submit hash0 st1 "alice" "Abc123!" =
      ({ st1 with logged_in_user := some "alice", page := "list_management" },
       Msg.success ("Welcome, " ++ "alice" ++ "! You have successfully logged in.")) :=
  (login_matches_spec hash0 st1 "alice" "Abc123!").1 aliceAcct (by decide) (by decide)

/-- C2: registration validation applies its rules in exactly this order,
stopping at the first failure and reporting that specific rule: (1) username
not already a key, (2) username non-empty, (3) password length at least 6,
(4) a lowercase letter, (5) an uppercase letter, (6) a digit, (7) a special
character; on any failure the whole state (store in memory, file on disk,
session) is unchanged. -/
theorem register_validation_order (hash : String → String) (st : AppState) (u p : String) :
    (containsKey st.accounts u = true →
      register_submit hash st u p
        = (st, Msg.error "Username already exists. Please choose a different one."))
  ∧ (containsKey st.accounts u = false → u = "" →
      register_submit hash st u p = (st, Msg.error "Username cannot be empty."))
  ∧ (containsKey st.accounts u = false → u ≠ "" → p.length < 6 →
      register_submit hash st u p
        = (st, Msg.error "Password must be at least 6 characters long."))
  ∧ (containsKey st.accounts u = false → u ≠ "" → ¬ p.length < 6 →
      hasLowercase p = false →
      register_submit hash st u p
        = (st, Msg.error "Password must contain at least one lowercase letter."))
  ∧ (containsKey st.accounts u = false → u ≠ "" → ¬ p.length < 6 →
      hasLowercase p = true → hasUppercase p = false →
      register_submit hash st u p
        = (st, Msg.error "Password must contain at least one uppercase letter."))
  ∧ (containsKey st.accounts u = false → u ≠ "" → ¬ p.length < 6 →
      hasLowercase p = true → hasUppercase p = true → hasDigit p = false →
      register_submit hash st u p
        = (st, Msg.error "Password must contain at least one digit."))
  ∧ (containsKey st.accounts u = false → u ≠ "" → ¬ p.length < 6 →
      hasLowercase p = true → hasUppercase p = true → hasDigit p = true →
      hasSpecial p = false →
      register_submit hash st u p
        = (st, Msg.error "Password must contain at least one special character.")) := by
  refine ⟨?_, ?_, ?_, ?_, ?_, ?_, ?_⟩
  · intro h1
    simp [register_submit, h1]
  · intro h1 h2
    subst h2
    simp [register_submit, h1]
  · intro h1 h2 h3
    simp [register_submit, h1, h2, h3]
  · intro h1 h2 h3 h4
    simp [register_submit, h1, h2, h3, h4]
  · intro h1 h2 h3 h4 h5
    simp [register_submit, h1, h2, h3, h4, h5]
  · intro h1 h2 h3 h4 h5 h6
    simp [register_submit, h1, h2, h3, h4, h5, h6]
  · intro h1 h2 h3 h4 h5 h6 h7
    simp [register_submit, h1, h2, h3, h4, h5, h6, h7]

theorem register_validation_order_witness :
    register_submit hash0 st0 "bob" "abc"
      = (st0, Msg.error "Password must be at least 6 characters long.") :=
  (register_validation_order hash0 st0 "bob" "abc").2.2.1 (by decide) (by decide) (by decide)

/-- C3: a registration input that passes all validation rules adds exactly one
new entry under the trimmed username, whose hash is the hash of the trimmed
password and whose list is empty; every other entry is unchanged; the full
store is persisted immediately; and the page becomes "login". -/
theorem register_success_spec (hash : String → String) (st : AppState) (rawU rawP : String)
    (h1 : containsKey st.accounts (pyStrip rawU) = false)
    (h2 : pyStrip rawU ≠ "")
    (h3 : ¬ (pyStrip rawP).length < 6)
    (h4 : hasLowercase (pyStrip rawP) = true)
    (h5 : hasUppercase (pyStrip rawP) = true)
    (h6 : hasDigit (pyStrip rawP) = true)
    (h7 : hasSpecial (pyStrip rawP) = true) :
    register_account_page hash st rawU rawP =
      ({ st with
          accounts := st.accounts ++
            [(pyStrip rawU, { password_hash := hash (pyStrip rawP), my_list := [] })],
          file := save_accounts (st.accounts ++
            [(pyStrip rawU, { password_hash := hash (pyStrip rawP), my_list := [] })]),
          page := "login" },
       Msg.success ("Account \x27" ++ pyStrip rawU ++ "\x27 created successfully!"))
    ∧ lookupStore (register_account_page hash st rawU rawP).1.accounts (pyStrip rawU)
        = some { password_hash := hash (pyStrip rawP), my_list := [] }
    ∧ ∀ v, v ≠ pyStrip rawU →
        lookupStore (register_account_page hash st rawU rawP).1.accounts v
          = lookupStore st.accounts v := by
  have heq : register_account_page hash st rawU rawP =
      ({ st with
          accounts := st.accounts ++
            [(pyStrip rawU, { password_hash := hash (pyStrip rawP), my_list := [] })],
          file := save_accounts (st.accounts ++
            [(pyStrip rawU, { password_hash := hash (pyStrip rawP), my_list := [] })]),
          page := "login" },
       Msg.success ("Account \x27" ++ pyStrip rawU ++ "\x27 created successfully!")) := by
    unfold register_account_page register_submit
    simp [h1, h2, h3, h4, h5, h6, h7]
  refine ⟨heq, ?_, ?_⟩
  · rw [heq]
    exact lookupStore_append_singleton_self _ _ _ ((containsKey_false_iff _ _).mp h1)
  · intro v hv
    rw [heq]
    exact lookupStore_append_singleton_ne _ _ _ _ hv

theorem register_success_spec_witness :
    lookupStore (register_account_page hash0 st0 " alice " "Abc123!").1.accounts
        (pyStrip " alice ")
      = some { password_hash := hash0 (pyStrip "Abc123!"), my_list := [] } :=
  (register_success_spec hash0 st0 " alice " "Abc123!" (by decide) (by decide)
    (by decide) (by decide) (by decide) (by decide) (by decide)).2.1

/-- C4: for a logged-in user's account, adding an item first trims it; an
empty or already-present (case-sensitive) trimmed item leaves the whole state
unchanged with a warning; otherwise the trimmed item is appended exactly once
at the end of that user's list, other accounts are untouched, the store is
persisted, and success is reported. -/
theorem add_item_spec (st : AppState) (u rawItem : String) (acct : Account)
    (h : lookupStore st.accounts u = some acct) :
    (pyStrip rawItem = "" →
      add_item st u rawItem = (st, Msg.warning "Item cannot be empty."))
  ∧ (pyStrip rawItem ≠ "" → pyStrip rawItem ∈ acct.my_list →
      add_item st u rawItem =
        (st, Msg.warning ("\x27" ++ pyStrip rawItem ++ "\x27 is already in your list.")))
  ∧ (pyStrip rawItem ≠ "" → pyStrip rawItem ∉ acct.my_list →
      lookupStore (add_item st u rawItem).1.accounts u
          = some { acct with my_list := acct.my_list ++ [pyStrip rawItem] }
      ∧ (∀ v, v ≠ u →
          lookupStore (add_item st u rawItem).1.accounts v = lookupStore st.accounts v)
      ∧ (add_item st u rawItem).1.file = save_accounts (add_item st u rawItem).1.accounts
      ∧ (add_item st u rawItem).2
          = Msg.success ("\x27" ++ pyStrip rawItem ++ "\x27 added to your list!")) := by
  refine ⟨?_, ?_, ?_⟩
  · intro he
    unfold add_item
    rw [h]
    dsimp only
    rw [if_neg (by simp [he])]
  · intro hne hmem
    unfold add_item
    rw [h]
    dsimp only
    rw [if_pos hne, if_pos hmem]
  · intro hne hmem
    have hadd : add_item st u rawItem =
        ({ st with
            accounts := updateAccount st.accounts u
              fun a => { a with my_list := a.my_list ++ [pyStrip rawItem] },
            file := save_accounts (updateAccount st.accounts u
              fun a => { a with my_list := a.my_list ++ [pyStrip rawItem] }) },
         Msg.success ("\x27" ++ pyStrip rawItem ++ "\x27 added to your list!")) := by
      unfold add_item
      rw [h]
      dsimp only
      rw [if_pos hne, if_neg hmem]
    refine ⟨?_, ?_, ?_, ?_⟩
    · rw [hadd]
      show lookupStore (updateAccount st.accounts u
        fun a => { a with my_list := a.my_list ++ [pyStrip rawItem] }) u = _
      rw [lookupStore_updateAccount_self, h]
      rfl
    · intro v hv
      rw [hadd]
      show lookupStore (updateAccount st.accounts u
        fun a => { a with my_list := a.my_list ++ [pyStrip rawItem] }) v = _
      exact lookupStore_updateAccount_ne _ _ _ _ hv
    · rw [hadd]
    · rw [hadd]

theorem add_item_spec_witness :
    lookupStore (add_item st1 "alice" " bread ").1.accounts "alice"
      = some { aliceAcct with my_list := aliceAcct.my_list ++ [pyStrip " bread "] } :=
  ((add_item_spec st1 "alice" " bread " aliceAcct (by decide)).2.2
    (by decide) (by decide)).1

/-- C5: removing an item that is in a logged-in user's list removes exactly
the first occurrence of it, preserves all other items and their relative
order, persists the store, and affects no other account. -/
theorem remove_item_spec (st : AppState) (u x : String) (acct : Account)
    (h : lookupStore st.accounts u = some acct) (hx : x ∈ acct.my_list) :
    ∃ l₁ l₂, x ∉ l₁ ∧ acct.my_list = l₁ ++ x :: l₂
      ∧ lookupStore (remove_item st u x).accounts u
          = some { acct with my_list := l₁ ++ l₂ }
      ∧ (∀ v, v ≠ u →
          lookupStore (remove_item st u x).accounts v = lookupStore st.accounts v)
      ∧ (remove_item st u x).file = save_accounts (remove_item st u x).accounts := by
  obtain ⟨l₁, l₂, hnx, hsplit, herase⟩ := List.exists_erase_eq hx
  have hrm : remove_item st u x =
      { st with
        accounts := updateAccount st.accounts u
          fun a => { a with my_list := a.my_list.erase x },
        file := save_accounts (updateAccount st.accounts u
          fun a => { a with my_list := a.my_list.erase x }) } := by
    unfold remove_item
    rw [h]
    dsimp only
    rw [if_pos hx]
  have hlkup : lookupStore (updateAccount st.accounts u
      fun a => { a with my_list := a.my_list.erase x }) u
      = some { acct with my_list := acct.my_list.erase x } := by
    rw [lookupStore_updateAccount_self, h]
    rfl
  refine ⟨l₁, l₂, hnx, hsplit, ?_, ?_, ?_⟩
  · rw [hrm]
    show lookupStore (updateAccount st.accounts u
      fun a => { a with my_list := a.my_list.erase x }) u = _
    rw [hlkup, herase]
  · intro v hv
    rw [hrm]
    show lookupStore (updateAccount st.accounts u
      fun a => { a with my_list := a.my_list.erase x }) v = _
    exact lookupStore_updateAccount_ne _ _ _ _ hv
  · rw [hrm]

theorem remove_item_spec_witness :
    ∃ l₁ l₂, "milk" ∉ l₁ ∧ aliceAcct.my_list = l₁ ++ "milk" :: l₂
      ∧ lookupStore (remove_item st1 "alice" "milk").accounts "alice"
          = some { aliceAcct with my_list := l₁ ++ l₂ }
      ∧ (∀ v, v ≠ "alice" →
          lookupStore (remove_item st1 "alice" "milk").accounts v
            = lookupStore st1.accounts v)
      ∧ (remove_item st1 "alice" "milk").file
          = save_accounts (remove_item st1 "alice" "milk").accounts :=
  remove_item_spec st1 "alice" "milk" aliceAcct (by decide) (by decide)

/-- C6: loading the file written by save yields the saved store back, with no
corruption warning: round-trip fidelity of the JSON persistence. -/
theorem persistence_roundtrip (s : Store) :
    load_accounts (save_accounts s) = (some s, false) := by
  show (decodeStore (encodeStore s), false) = (some s, false)
  rw [decodeStore_encodeStore]

/-- C7: load returns the empty mapping when the accounts file is absent, and
when the file exists but is not parsable as JSON it warns and returns the
empty mapping instead of crashing. -/
theorem load_accounts_recovery :
    load_accounts FileContent.absent = (some [], false)
  ∧ load_accounts FileContent.corrupt = (some [], true) :=
  ⟨rfl, rfl⟩

/-- C8: in every state reachable from a well-formed (in particular empty)
store by registration, add, remove, clear, and logout operations, no
account's `my_list` contains the same string twice. -/
theorem my_list_nodup_invariant (hash : String → String) (st : AppState)
    (h : StoreWF st.accounts) (ops : List Op) :
    ∀ p ∈ ((ops.foldl (applyOp hash) st).accounts), (Prod.snd p).my_list.Nodup :=
  (StoreWF_foldl hash ops st h).2

theorem my_list_nodup_invariant_witness :
    (Prod.snd (("alice",
      ({ password_hash := hash0 "Abc123!", my_list := ["milk", "eggs"] } : Account)) :
        String × Account)).my_list.Nodup :=
  my_list_nodup_invariant hash0 st0 StoreWF_nil
    [Op.reg "alice" "Abc123!", Op.add "alice" "milk", Op.add "alice" "eggs",
     Op.add "alice" "milk"]
    ("alice", { password_hash := hash0 "Abc123!", my_list := ["milk", "eggs"] })
    (by decide)

/-- C9: each list-manager operation (add, remove, clear) modifies at most the
record of the user it acts on: every other username's entry is unchanged in
memory, and the file is either untouched or exactly the serialisation of the
new in-memory store (so it agrees with it on every other username). -/
theorem list_ops_frame (hash : String → String) (st : AppState) (op : Op) (u v : String)
    (h1 : op.isListOp = true) (h2 : op.user = some u) (h3 : v ≠ u) :
    lookupStore (applyOp hash st op).accounts v = lookupStore st.accounts v
  ∧ ((applyOp hash st op).file = st.file
      ∨ (applyOp hash st op).file
          = FileContent.json (encodeStore (applyOp hash st op).accounts)) := by
  cases op with
  | reg u' p => simp [Op.isListOp] at h1
  | logout => simp [Op.isListOp] at h1
  | add u' raw =>
    have hu : u' = u := by simpa [Op.user] using h2
    subst hu
    show lookupStore (add_item st u' raw).1.accounts v = lookupStore st.accounts v
      ∧ ((add_item st u' raw).1.file = st.file
          ∨ (add_item st u' raw).1.file
              = FileContent.json (encodeStore (add_item st u' raw).1.accounts))
    unfold add_item
    cases hlk : lookupStore st.accounts u' with
    | none => exact ⟨rfl, Or.inl rfl⟩
    | some acct =>
      dsimp only
      split_ifs with ha hb
      · exact ⟨rfl, Or.inl rfl⟩
      · refine ⟨?_, Or.inr rfl⟩
        show lookupStore (updateAccount st.accounts u'
          fun a => { a with my_list := a.my_list ++ [pyStrip raw] }) v = _
        exact lookupStore_updateAccount_ne _ _ _ _ h3
      · exact ⟨rfl, Or.inl rfl⟩
  | rem u' item =>
    have hu : u' = u := by simpa [Op.user] using h2
    subst hu
    show lookupStore (remove_item st u' item).accounts v = lookupStore st.accounts v
      ∧ ((remove_item st u' item).file = st.file
          ∨ (remove_item st u' item).file
              = FileContent.json (encodeStore (remove_item st u' item).accounts))
    unfold remove_item
    cases hlk : lookupStore st.accounts u' with
    | none => exact ⟨rfl, Or.inl rfl⟩
    | some acct =>
      dsimp only
      split_ifs with ha
      · refine ⟨?_, Or.inr rfl⟩
        show lookupStore (updateAccount st.accounts u'
          fun a => { a with my_list := a.my_list.erase item }) v = _
        exact lookupStore_updateAccount_ne _ _ _ _ h3
      · exact ⟨rfl, Or.inl rfl⟩
  | clear u' =>
    have hu : u' = u := by simpa [Op.user] using h2
    subst hu
    show lookupStore (clear_list st u').1.accounts v = lookupStore st.accounts v
      ∧ ((clear_list st u').1.file = st.file
          ∨ (clear_list st u').1.file
              = FileContent.json (encodeStore (clear_list st u').1.accounts))
    unfold clear_list
    cases hlk : lookupStore st.accounts u' with
    | none => exact ⟨rfl, Or.inl rfl⟩
    | some acct =>
      dsimp only
      split_ifs with ha
      · refine ⟨?_, Or.inr rfl⟩
        show lookupStore (updateAccount st.accounts u'
          fun a => { a with my_list := [] }) v = _
        exact lookupStore_updateAccount_ne _ _ _ _ h3
      · exact ⟨rfl, Or.inl rfl⟩

theorem list_ops_frame_witness :
    lookupStore (applyOp hash0 st1 (Op.add "alice" "bread")).accounts "bob"
        = lookupStore st1.accounts "bob"
    ∧ ((applyOp hash0 st1 (Op.add "alice" "bread")).file = st1.file
        ∨ (applyOp hash0 st1 (Op.add "alice" "bread")).file
            = FileContent.json
                (encodeStore (applyOp hash0 st1 (Op.add "alice" "bread")).accounts)) :=
  list_ops_frame hash0 st1 (Op.add "alice" "bread") "alice" "bob"
    (by decide) (by decide) (by decide)

/-- C10: the login page strips surrounding whitespace from both the username
and the password before doing anything else, so login on any raw pair behaves
identically to login on the trimmed pair. -/
theorem login_trims_inputs (hash : String → String) (st : AppState) (rawU rawP : String) :
    login_account_page hash st rawU rawP
      = login_account_page hash st (pyStrip rawU) (pyStrip rawP) := by
  unfold login_account_page
  rw [pyStrip_idem, pyStrip_idem]

end ListAnItem
